import Mathlib

/-!
Verification development for the persistent progress-tracking core of the
promptQUEST training app (`prompt_training_app.py`, class `UserProgressTracker`
and its helpers).  The Python code is shallowly embedded below:

* Python `dict` (`self.data["users"]`) is modelled as an insertion-ordered
  association list `List (String × UserRecord)`; assignment to an existing key
  replaces the value in place, assignment to a fresh key appends at the end,
  exactly as a Python dict iterates.
* Python numbers: all scores are `Int` (Python ints are unbounded).  The two
  float computations of the source — `avg_score = total_score / attempts`
  compared against thresholds, and `round(avg_score, 2)` — are modelled as
  exact rational arithmetic: `total/attempts ≥ c` is expressed integrally as
  `c * attempts ≤ total` (valid since `attempts > 0` at every use site), and
  `round(·, 2)` (Python's round-half-to-even) is computed exactly in
  hundredths by `roundHundredths`.  Leaderboard `avg_score` is therefore
  carried as an integer number of hundredths.
* Python strings compare lexicographically by code point; `charListLe` mirrors
  this on the character lists underlying Lean strings (Lean `Char <` is
  code-point order).
* `datetime.now()` is modelled by an explicit `now : String` argument.
* The JSON file used by `_load_data` / `_save_data` is modelled by the `Json`
  value type further below; Python's `json.dump`/`json.load` round-trip a JSON
  value exactly, so persistence is modelled at the JSON-value level.
-/

/-- Lexicographic code-point comparison of character lists; the order Python
uses for `str` comparison (and pandas for object-dtype columns). -/
def charListLe : List Char → List Char → Bool
  | [], _ => true
  | _ :: _, [] => false
  | c :: cs, d :: ds =>
      if c < d then true
      else if d < c then false
      else charListLe cs ds

/-- Python string `<=`. -/
def strLe (a b : String) : Bool := charListLe a.data b.data

/-- Exact integer model of Python `round(t / a, 2)` scaled by 100, for `a > 0`:
round-half-to-even applied to the exact rational `100*t/a`. -/
def roundHundredths (t : Int) (a : Int) : Int :=
  let n := 100 * t
  let q := Int.fdiv n a
  let r := Int.fmod n a
  if 2 * r < a then q
  else if a < 2 * r then q + 1
  else if q % 2 = 0 then q
  else q + 1

/-- The evaluation payload stored inside an attempt.  The Python code treats
`evaluation` as an opaque dict; these are exactly the fields the core reads
(`export_to_csv`). -/
structure EvalRecord where
  clarity_score : Int
  specificity_score : Int
  structure_score : Int
  task_alignment_score : Int
  feedback : String
  strengths : List String
  improvements : List String
deriving DecidableEq

/-- An all-empty evaluation payload, used for concrete test stores. -/
def evalZero : EvalRecord := ⟨0, 0, 0, 0, "", [], []⟩

/-- One entry of `user["history"]` as appended by `record_attempt`. -/
structure Attempt where
  timestamp : String
  scenario_id : String
  score : Int
  evaluation : EvalRecord
  user_prompt : String
deriving DecidableEq

/-- The per-user record created by `add_user` and mutated by `record_attempt`. -/
structure UserRecord where
  total_score : Int
  attempts : Nat
  skill_level : String
  badges : List String
  history : List Attempt
deriving DecidableEq

/-- One leaderboard entry; `avg_score` is in hundredths (the exact value of
Python's `round(avg, 2)` times 100). -/
structure LBEntry where
  username : String
  avg_score : Int
  total_attempts : Nat
  skill_level : String
  badges : Nat
deriving DecidableEq

/-- The whole persisted document `self.data`. -/
structure StoreDoc where
  users : List (String × UserRecord)
  leaderboard : List LBEntry
deriving DecidableEq

/-- Python dict lookup `users[name]` (keys are unique in a dict, so first
match is the match). -/
def findUser : List (String × UserRecord) → String → Option UserRecord
  | [], _ => none
  | p :: ps, name => if p.1 = name then some p.2 else findUser ps name

/-- Python dict assignment `users[name] = r`: replace in place if the key
exists, append otherwise. -/
def dictSet : List (String × UserRecord) → String → UserRecord → List (String × UserRecord)
  | [], name, r => [(name, r)]
  | p :: ps, name, r => if p.1 = name then (p.1, r) :: ps else p :: dictSet ps name r

/-- The record `add_user` creates. -/
def freshUser : UserRecord :=
  { total_score := 0, attempts := 0, skill_level := "beginner", badges := [], history := [] }

/-- The document `_load_data` returns when nothing usable is on disk. -/
def emptyStore : StoreDoc := { users := [], leaderboard := [] }

/-- `UserProgressTracker.add_user`. -/
def addUser (name : String) (s : StoreDoc) : StoreDoc :=
  match findUser s.users name with
  | some _ => s
  | none => { s with users := dictSet s.users name freshUser }

/-- `UserProgressTracker._check_and_award_badges`, as a function from the
updated user record to the new badge list.  The four rules run in source
order, each seeing the list produced by the previous one. -/
def awardBadges (u : UserRecord) : List String :=
  let b0 := u.badges
  let b1 := if u.history.any (fun h => h.score == 100) ∧ "Perfect Score" ∉ b0
            then b0 ++ ["Perfect Score"] else b0
  let b2 := if 3 ≤ (u.history.filter (fun h => decide ((80 : Int) < h.score))).length ∧
               "Consistent Performer" ∉ b1
            then b1 ++ ["Consistent Performer"] else b1
  let b3 := if 10 ≤ u.attempts ∧ "Dedicated Learner" ∉ b2
            then b2 ++ ["Dedicated Learner"] else b2
  let adv := u.history.filter (fun h => ("a".data).isPrefixOf h.scenario_id.data)
  let b4 := if 5 ≤ adv.length then
              (if 85 * (adv.length : Int) < (adv.map (fun h => h.score)).sum ∧
                  "Advanced Master" ∉ b3
               then b3 ++ ["Advanced Master"] else b3)
            else b3
  b4

/-- The fresh leaderboard entry `_update_leaderboard` builds for `name`. -/
def lbEntryOf (name : String) (u : UserRecord) : LBEntry :=
  { username := name
    avg_score := if 0 < u.attempts then roundHundredths u.total_score (u.attempts : Int) else 0
    total_attempts := u.attempts
    skill_level := u.skill_level
    badges := u.badges.length }

/-- Comparator for `leaderboard.sort(key=avg_score, reverse=True)`:
`a` may stay before `b` iff `a.avg_score ≥ b.avg_score`. -/
def lbLe (a b : LBEntry) : Bool := decide (b.avg_score ≤ a.avg_score)

/-- Stable insertion of `x` into `l`: `x` goes before the first element it is
`le`-related to, hence before every element it ties with. -/
def insertBy (le : α → α → Bool) (x : α) : List α → List α
  | [] => [x]
  | y :: ys => if le x y then x :: y :: ys else y :: insertBy le x ys

/-- Stable insertion sort.  Python's `list.sort` is a stable sort, and a
stable sort's output is uniquely determined by the comparison key, so this is
an exact model of it. -/
def sortBy (le : α → α → Bool) : List α → List α
  | [] => []
  | x :: xs => insertBy le x (sortBy le xs)

/-- `UserProgressTracker._update_leaderboard`.  (In the source the user is
always present when this runs; the `none` branch is unreachable there.) -/
def updateLeaderboard (name : String) (s : StoreDoc) : StoreDoc :=
  match findUser s.users name with
  | none => s
  | some u =>
      let rest := s.leaderboard.filter (fun e => !(e.username == name))
      { s with leaderboard := sortBy lbLe (rest ++ [lbEntryOf name u]) }

/-- The in-place mutation `record_attempt` performs on the user record:
counters, history append, skill-level recomputation, badge pass.
`avg_score >= 85` on the exact average `tot/att` is `85*att ≤ tot`. -/
def bumpUser (now scenarioId : String) (score : Int) (ev : EvalRecord) (prompt : String)
    (u : UserRecord) : UserRecord :=
  let att := u.attempts + 1
  let tot := u.total_score + score
  let hist := u.history ++
    [{ timestamp := now, scenario_id := scenarioId, score := score,
       evaluation := ev, user_prompt := prompt }]
  let lvl := if 85 * (att : Int) ≤ tot ∧ 5 ≤ att then "advanced"
             else if 70 * (att : Int) ≤ tot ∧ 3 ≤ att then "intermediate"
             else u.skill_level
  let u1 : UserRecord :=
    { total_score := tot, attempts := att, skill_level := lvl,
      badges := u.badges, history := hist }
  { u1 with badges := awardBadges u1 }

/-- `UserProgressTracker.record_attempt`.  The trailing CSV auto-backup and
`_save_data` call do not change `self.data`, so the state transition is fully
captured here. -/
def recordAttempt (now name scenarioId : String) (score : Int) (ev : EvalRecord)
    (prompt : String) (s : StoreDoc) : StoreDoc :=
  let s1 := addUser name s
  let u0 := (findUser s1.users name).getD freshUser
  let u1 := bumpUser now scenarioId score ev prompt u0
  updateLeaderboard name { s1 with users := dictSet s1.users name u1 }

/-- The two public mutating operations of the tracker. -/
inductive Op where
  | add (name : String)
  | record (now name scenarioId : String) (score : Int) (ev : EvalRecord) (prompt : String)

/-- Run one operation. -/
def applyOp (s : StoreDoc) : Op → StoreDoc
  | .add name => addUser name s
  | .record now name scenarioId score ev prompt =>
      recordAttempt now name scenarioId score ev prompt s

/-- Run a sequence of operations from left to right. -/
def applyOps (ops : List Op) (s : StoreDoc) : StoreDoc := ops.foldl applyOp s

/-- The operations of spec Scenario A: alice records 100, 90, 95 on
scenarios b1, i1, a1. -/
def scenarioAOps : List Op :=
  [ .record "t1" "alice" "b1" 100 evalZero ""
  , .record "t2" "alice" "i1" 90 evalZero ""
  , .record "t3" "alice" "a1" 95 evalZero "" ]

/-- The store reached in spec Scenario A. -/
def scenarioAStore : StoreDoc := applyOps scenarioAOps emptyStore

/-- Alice's record in the Scenario A store. -/
def scenarioAAlice : UserRecord := (findUser scenarioAStore.users "alice").getD freshUser

/-! ### Tabular export (`export_to_csv`) -/

/-- Python `sep.join(xs) if xs else ''`. -/
def joinOrEmpty (sep : String) (xs : List String) : String :=
  if xs = [] then "" else String.intercalate sep xs

/-- `feedback[:100] + '...' if len(feedback) > 100 else feedback`. -/
def feedbackSummary (fb : String) : String :=
  if 100 < fb.length then fb.take 100 ++ "..." else fb

/-- One CSV row, columns in source order.  `avg_score` is in hundredths, like
`LBEntry.avg_score`. -/
structure Row where
  username : String
  timestamp : String
  scenario_id : String
  total_score : Int
  clarity_score : Int
  specificity_score : Int
  structure_score : Int
  task_alignment_score : Int
  skill_level : String
  total_attempts : Nat
  cumulative_score : Int
  avg_score : Int
  badges_count : Nat
  badges : String
  user_prompt : String
  strengths : String
  improvements : String
  feedback_summary : String
deriving DecidableEq

/-- The row `export_to_csv` builds for one attempt of a user with history. -/
def attemptRow (username : String) (d : UserRecord) (a : Attempt) : Row :=
  { username := username
    timestamp := a.timestamp
    scenario_id := a.scenario_id
    total_score := a.score
    clarity_score := a.evaluation.clarity_score
    specificity_score := a.evaluation.specificity_score
    structure_score := a.evaluation.structure_score
    task_alignment_score := a.evaluation.task_alignment_score
    skill_level := d.skill_level
    total_attempts := d.attempts
    cumulative_score := d.total_score
    avg_score := if 0 < d.attempts then roundHundredths d.total_score (d.attempts : Int) else 0
    badges_count := d.badges.length
    badges := joinOrEmpty ", " d.badges
    user_prompt := a.user_prompt
    strengths := joinOrEmpty "; " a.evaluation.strengths
    improvements := joinOrEmpty "; " a.evaluation.improvements
    feedback_summary := feedbackSummary a.evaluation.feedback }

/-- The single row `export_to_csv` builds for a user with empty history. -/
def placeholderRow (username : String) (d : UserRecord) : Row :=
  { username := username
    timestamp := ""
    scenario_id := ""
    total_score := 0
    clarity_score := 0
    specificity_score := 0
    structure_score := 0
    task_alignment_score := 0
    skill_level := d.skill_level
    total_attempts := d.attempts
    cumulative_score := d.total_score
    avg_score := 0
    badges_count := d.badges.length
    badges := joinOrEmpty ", " d.badges
    user_prompt := ""
    strengths := ""
    improvements := ""
    feedback_summary := "No attempts yet" }

/-- The rows contributed by one `users` item. -/
def userRows (p : String × UserRecord) : List Row :=
  if p.2.history = [] then [placeholderRow p.1 p.2]
  else p.2.history.map (attemptRow p.1 p.2)

/-- Comparator of `df.sort_values(['username', 'timestamp'])`: ascending
lexicographic order on the pair of strings.  (`na_position='last'` only
affects NaN values; the placeholder timestamp is the empty string, which
pandas compares as an ordinary string.) -/
def rowLe (a b : Row) : Bool :=
  if a.username = b.username then strLe a.timestamp b.timestamp
  else strLe a.username b.username

/-- All rows, in `users` iteration order, before sorting. -/
def usersRows (l : List (String × UserRecord)) : List Row := l.flatMap userRows

/-- `UserProgressTracker.export_to_csv`, modelled as the table it writes:
`none` when there are no rows (the source returns `None` and writes no file),
otherwise the sorted row list. -/
def exportToCsv (doc : StoreDoc) : Option (List Row) :=
  let rows := usersRows doc.users
  if rows = [] then none else some (sortBy rowLe rows)

/-! ### Persistence (`_load_data` / `_save_data`)

The on-disk state is a JSON document.  Python's `json.dump`/`json.load`
round-trip a JSON value exactly (ints exactly; floats via shortest-repr),
so the file is modelled as a JSON value and serialisation as the identity
on it. -/

/-- JSON values as Python's `json` module produces them.  Numbers are modelled
as exact rationals (see the header note on floats). -/
inductive Json where
  | null
  | bool (b : Bool)
  | num (q : ℚ)
  | str (s : String)
  | arr (xs : List Json)
  | obj (fields : List (String × Json))

/-- Python dict lookup on a JSON object. -/
def jLookup (fields : List (String × Json)) (k : String) : Option Json :=
  (fields.find? (fun p => p.1 == k)).map (fun p => p.2)

/-- The structural check of `_load_data`:
`isinstance(data, dict) and 'users' in data and 'leaderboard' in data`. -/
def isValidStore (j : Json) : Bool :=
  match j with
  | .obj fields =>
      fields.any (fun p => p.1 == "users") && fields.any (fun p => p.1 == "leaderboard")
  | _ => false

/-- The fresh document `{"users": {}, "leaderboard": []}`. -/
def emptyStoreJson : Json := .obj [("users", .obj []), ("leaderboard", .arr [])]

/-- What `_load_data` finds at the storage path. -/
inductive FileContent where
  | absent
  | unparseable (raw : String)
  | parsed (j : Json)

/-- Result of `_load_data`: the returned document plus the backup file written
(its content), if one was written. -/
structure LoadResult where
  doc : Json
  backup : Option String

/-- `UserProgressTracker._load_data`.  A parse failure (`JSONDecodeError`)
copies the original bytes to a backup and returns a fresh document; a
parseable file that fails the structural check returns a fresh document with
no backup; a valid file is returned as read. -/
def loadData : FileContent → LoadResult
  | .absent => { doc := emptyStoreJson, backup := none }
  | .unparseable raw => { doc := emptyStoreJson, backup := some raw }
  | .parsed j =>
      if isValidStore j then { doc := j, backup := none }
      else { doc := emptyStoreJson, backup := none }

/-- JSON encoding of the evaluation payload, keys as `record_attempt` stores
them. -/
def encodeEval (e : EvalRecord) : Json :=
  .obj [ ("clarity_score", .num (e.clarity_score : ℚ))
       , ("specificity_score", .num (e.specificity_score : ℚ))
       , ("structure_score", .num (e.structure_score : ℚ))
       , ("task_alignment_score", .num (e.task_alignment_score : ℚ))
       , ("feedback", .str e.feedback)
       , ("strengths", .arr (e.strengths.map Json.str))
       , ("improvements", .arr (e.improvements.map Json.str)) ]

/-- JSON encoding of one history entry. -/
def encodeAttempt (a : Attempt) : Json :=
  .obj [ ("timestamp", .str a.timestamp)
       , ("scenario_id", .str a.scenario_id)
       , ("score", .num (a.score : ℚ))
       , ("evaluation", encodeEval a.evaluation)
       , ("user_prompt", .str a.user_prompt) ]

/-- JSON encoding of a user record. -/
def encodeUser (u : UserRecord) : Json :=
  .obj [ ("total_score", .num (u.total_score : ℚ))
       , ("attempts", .num (u.attempts : ℚ))
       , ("skill_level", .str u.skill_level)
       , ("badges", .arr (u.badges.map Json.str))
       , ("history", .arr (u.history.map encodeAttempt)) ]

/-- JSON encoding of a leaderboard entry; the stored `avg_score` float is the
hundredths value divided by 100. -/
def encodeLB (e : LBEntry) : Json :=
  .obj [ ("username", .str e.username)
       , ("avg_score", .num ((e.avg_score : ℚ) / 100))
       , ("total_attempts", .num (e.total_attempts : ℚ))
       , ("skill_level", .str e.skill_level)
       , ("badges", .num (e.badges : ℚ)) ]

/-- JSON encoding of the whole document, as `_save_data` dumps `self.data`. -/
def encodeStore (d : StoreDoc) : Json :=
  .obj [ ("users", .obj (d.users.map (fun p => (p.1, encodeUser p.2))))
       , ("leaderboard", .arr (d.leaderboard.map encodeLB)) ]

/-- `UserProgressTracker._save_data`: writes the JSON dump of the document
(via a temp file replaced atomically; the content is the encoded document). -/
def saveData (d : StoreDoc) : FileContent := .parsed (encodeStore d)

/-- Extract a JSON string. -/
def jStr? : Json → Option String
  | .str s => some s
  | _ => none

/-- Extract a JSON integer. -/
def jInt? : Json → Option Int
  | .num q => if q.den = 1 then some q.num else none
  | _ => none

/-- Extract a JSON non-negative integer. -/
def jNat? : Json → Option Nat
  | .num q => if q.den = 1 ∧ 0 ≤ q.num then some q.num.toNat else none
  | _ => none

/-- Extract a JSON number that is a whole number of hundredths, scaled. -/
def jCenti? : Json → Option Int
  | .num q => if (q * 100).den = 1 then some (q * 100).num else none
  | _ => none

/-- Traverse a list under `Option`. -/
def mapMOpt (f : α → Option β) : List α → Option (List β)
  | [] => some []
  | x :: xs =>
      match f x, mapMOpt f xs with
      | some y, some ys => some (y :: ys)
      | _, _ => none

/-- Extract a JSON array of strings. -/
def jStrList? : Json → Option (List String)
  | .arr xs => mapMOpt jStr? xs
  | _ => none

/-- Decode an evaluation payload. -/
def decodeEval (j : Json) : Option EvalRecord :=
  match j with
  | .obj fs => do
      let c ← jLookup fs "clarity_score" >>= jInt?
      let sp ← jLookup fs "specificity_score" >>= jInt?
      let st ← jLookup fs "structure_score" >>= jInt?
      let ta ← jLookup fs "task_alignment_score" >>= jInt?
      let fb ← jLookup fs "feedback" >>= jStr?
      let strg ← jLookup fs "strengths" >>= jStrList?
      let imp ← jLookup fs "improvements" >>= jStrList?
      some { clarity_score := c, specificity_score := sp, structure_score := st,
             task_alignment_score := ta, feedback := fb, strengths := strg,
             improvements := imp }
  | _ => none

/-- Decode one history entry. -/
def decodeAttempt (j : Json) : Option Attempt :=
  match j with
  | .obj fs => do
      let ts ← jLookup fs "timestamp" >>= jStr?
      let sid ← jLookup fs "scenario_id" >>= jStr?
      let sc ← jLookup fs "score" >>= jInt?
      let ev ← jLookup fs "evaluation" >>= decodeEval
      let up ← jLookup fs "user_prompt" >>= jStr?
      some { timestamp := ts, scenario_id := sid, score := sc, evaluation := ev,
             user_prompt := up }
  | _ => none

/-- Decode a user record. -/
def decodeUser (j : Json) : Option UserRecord :=
  match j with
  | .obj fs => do
      let tot ← jLookup fs "total_score" >>= jInt?
      let att ← jLookup fs "attempts" >>= jNat?
      let lvl ← jLookup fs "skill_level" >>= jStr?
      let bs ← jLookup fs "badges" >>= jStrList?
      let hs ← match jLookup fs "history" with
               | some (.arr xs) => mapMOpt decodeAttempt xs
               | _ => none
      some { total_score := tot, attempts := att, skill_level := lvl,
             badges := bs, history := hs }
  | _ => none

/-- Decode a leaderboard entry. -/
def decodeLB (j : Json) : Option LBEntry :=
  match j with
  | .obj fs => do
      let un ← jLookup fs "username" >>= jStr?
      let avg ← jLookup fs "avg_score" >>= jCenti?
      let ta ← jLookup fs "total_attempts" >>= jNat?
      let lvl ← jLookup fs "skill_level" >>= jStr?
      let bs ← jLookup fs "badges" >>= jNat?
      some { username := un, avg_score := avg, total_attempts := ta,
             skill_level := lvl, badges := bs }
  | _ => none

/-- Decode the whole document. -/
def decodeStore (j : Json) : Option StoreDoc :=
  match j with
  | .obj fs =>
      match jLookup fs "users", jLookup fs "leaderboard" with
      | some (.obj ufs), some (.arr lbs) =>
          match mapMOpt (fun p => (decodeUser p.2).map (fun r => (p.1, r))) ufs,
                mapMOpt decodeLB lbs with
          | some us, some lb => some { users := us, leaderboard := lb }
          | _, _ => none
      | _, _ => none
  | _ => none

/-! ### Concrete stores used as demonstration inputs -/

/-- A parseable JSON document missing both required fields. -/
def malformedJson : Json := .obj [("foo", .str "bar")]

/-- A store holding one registered user who never recorded an attempt. -/
def zeroAttemptStore : StoreDoc := { users := [("carol", freshUser)], leaderboard := [] }

/-- Scenario D, user x: one attempt with score 80. -/
def scenDxRec : UserRecord :=
  { total_score := 80, attempts := 1, skill_level := "beginner", badges := []
    history := [{ timestamp := "t1", scenario_id := "b1", score := 80,
                  evaluation := evalZero, user_prompt := "" }] }

/-- Scenario D, user y: one attempt with score 80, recorded after x. -/
def scenDyRec : UserRecord :=
  { total_score := 80, attempts := 1, skill_level := "beginner", badges := []
    history := [{ timestamp := "t2", scenario_id := "b2", score := 80,
                  evaluation := evalZero, user_prompt := "" }] }

/-- Scenario D store, at the instant `_update_leaderboard("y")` runs: both
user records updated, leaderboard still holding only x's entry. -/
def scenDStore : StoreDoc :=
  { users := [("x", scenDxRec), ("y", scenDyRec)], leaderboard := [lbEntryOf "x" scenDxRec] }

/-- The sorted export table of the Scenario A store. -/
def scenarioARows : List Row := (exportToCsv scenarioAStore).getD []

/-- The sorted export table of the zero-attempt store. -/
def zeroAttemptRows : List Row := (exportToCsv zeroAttemptStore).getD []

/-- Alice's record after one further zero-score attempt on top of Scenario A. -/
def afterMoreOpsAlice : UserRecord :=
  (findUser (applyOps [Op.record "t4" "alice" "b2" 0 evalZero ""] scenarioAStore).users
      "alice").getD freshUser

/-- Per-user score bookkeeping invariant: `total_score` is the sum of the
history's scores and `attempts` its length, for every stored user. -/
def ScoresConsistent (s : StoreDoc) : Prop :=
  ∀ name r, findUser s.users name = some r →
    r.total_score = (r.history.map (fun a => a.score)).sum ∧
    r.attempts = r.history.length

/-- Number of leaderboard entries carrying a given username. -/
def lbCount (s : StoreDoc) (name : String) : Nat :=
  s.leaderboard.countP (fun e => e.username == name)

/-- Leaderboard membership invariant: exactly one entry for every stored user
with at least one attempt, no entry for anyone else. -/
def LeaderboardConsistent (s : StoreDoc) : Prop :=
  ∀ name, lbCount s name =
    match findUser s.users name with
    | some r => if 0 < r.attempts then 1 else 0
    | none => 0

/-! ## Lemmas and claim theorems -/

theorem findUser_dictSet_self (users : List (String × UserRecord)) (name : String)
    (r : UserRecord) : findUser (dictSet users name r) name = some r := by
  induction users with
  | nil => simp [dictSet, findUser]
  | cons p ps ih =>
      by_cases h : p.1 = name
      · simp [dictSet, h, findUser]
      · simp [dictSet, h, findUser, ih]

theorem findUser_dictSet_ne (users : List (String × UserRecord)) {name m : String}
    (r : UserRecord) (h : m ≠ name) :
    findUser (dictSet users name r) m = findUser users m := by
  induction users with
  | nil => simp [dictSet, findUser, Ne.symm h]
  | cons p ps ih =>
      by_cases hp : p.1 = name
      · simp [dictSet, hp, findUser, Ne.symm h]
      · by_cases hm : p.1 = m <;> simp [dictSet, hp, findUser, hm, h, Ne.symm h, ih]

theorem users_updateLeaderboard (name : String) (s : StoreDoc) :
    (updateLeaderboard name s).users = s.users := by
  unfold updateLeaderboard
  cases findUser s.users name <;> rfl

theorem leaderboard_addUser (name : String) (s : StoreDoc) :
    (addUser name s).leaderboard = s.leaderboard := by
  unfold addUser
  cases findUser s.users name <;> rfl

theorem findUser_addUser_self (name : String) (s : StoreDoc) :
    findUser (addUser name s).users name =
      some ((findUser s.users name).getD freshUser) := by
  unfold addUser
  cases h : findUser s.users name with
  | none => simp [h, findUser_dictSet_self]
  | some u => simp [h]

theorem findUser_addUser_ne {name m : String} (s : StoreDoc) (h : m ≠ name) :
    findUser (addUser name s).users m = findUser s.users m := by
  unfold addUser
  cases hf : findUser s.users name with
  | none => simp [findUser_dictSet_ne _ _ h]
  | some u => rfl

theorem findUser_recordAttempt_self (now name scenarioId : String) (score : Int)
    (ev : EvalRecord) (prompt : String) (s : StoreDoc) :
    findUser (recordAttempt now name scenarioId score ev prompt s).users name =
      some (bumpUser now scenarioId score ev prompt
              ((findUser s.users name).getD freshUser)) := by
  simp [recordAttempt, users_updateLeaderboard, findUser_dictSet_self,
        findUser_addUser_self]

theorem findUser_recordAttempt_ne (now : String) {name m : String} (scenarioId : String)
    (score : Int) (ev : EvalRecord) (prompt : String) (s : StoreDoc) (h : m ≠ name) :
    findUser (recordAttempt now name scenarioId score ev prompt s).users m =
      findUser s.users m := by
  simp [recordAttempt, users_updateLeaderboard, findUser_dictSet_ne _ _ h,
        findUser_addUser_ne _ h]

theorem leaderboard_recordAttempt (now name scenarioId : String) (score : Int)
    (ev : EvalRecord) (prompt : String) (s : StoreDoc) :
    (recordAttempt now name scenarioId score ev prompt s).leaderboard =
      sortBy lbLe ((s.leaderboard.filter (fun e => !(e.username == name))) ++
        [lbEntryOf name (bumpUser now scenarioId score ev prompt
            ((findUser s.users name).getD freshUser))]) := by
  simp [recordAttempt, updateLeaderboard, findUser_dictSet_self,
        findUser_addUser_self, leaderboard_addUser]

theorem insertBy_perm (le : α → α → Bool) (x : α) (l : List α) :
    (insertBy le x l).Perm (x :: l) := by
  induction l with
  | nil => exact List.Perm.refl _
  | cons y ys ih =>
      cases hxy : le x y with
      | true => simp [insertBy, hxy]
      | false =>
          simp only [insertBy, hxy, Bool.false_eq_true, if_false]
          exact (ih.cons y).trans (List.Perm.swap x y ys)

theorem sortBy_perm (le : α → α → Bool) (l : List α) : (sortBy le l).Perm l := by
  induction l with
  | nil => exact List.Perm.refl _
  | cons x xs ih => exact (insertBy_perm le x (sortBy le xs)).trans (ih.cons x)

theorem insertBy_pairwise (le : α → α → Bool)
    (htrans : ∀ a b c, le a b = true → le b c = true → le a c = true)
    (htot : ∀ a b, le a b = true ∨ le b a = true) (x : α) (l : List α)
    (hl : l.Pairwise (fun a b => le a b = true)) :
    (insertBy le x l).Pairwise (fun a b => le a b = true) := by
  induction l with
  | nil => simp [insertBy]
  | cons y ys ih =>
      rcases List.pairwise_cons.mp hl with ⟨hy, hys⟩
      cases hxy : le x y with
      | true =>
          simp only [insertBy, hxy, if_true]
          refine List.pairwise_cons.mpr ⟨?_, hl⟩
          intro z hz
          rcases List.mem_cons.mp hz with rfl | hzys
          · exact hxy
          · exact htrans x y z hxy (hy z hzys)
      | false =>
          simp only [insertBy, hxy, Bool.false_eq_true, if_false]
          refine List.pairwise_cons.mpr ⟨?_, ih hys⟩
          intro z hz
          have hz' : z ∈ x :: ys := (insertBy_perm le x ys).mem_iff.mp hz
          rcases List.mem_cons.mp hz' with rfl | hzys
          · rcases htot z y with h | h
            · rw [h] at hxy; cases hxy
            · exact h
          · exact hy z hzys

theorem sortBy_pairwise (le : α → α → Bool)
    (htrans : ∀ a b c, le a b = true → le b c = true → le a c = true)
    (htot : ∀ a b, le a b = true ∨ le b a = true) (l : List α) :
    (sortBy le l).Pairwise (fun a b => le a b = true) := by
  induction l with
  | nil => simp [sortBy]
  | cons x xs ih => exact insertBy_pairwise le htrans htot x _ ih

theorem filter_insertBy_pos (le : α → α → Bool) (p : α → Bool) (x : α)
    (hx : p x = true) (hcomp : ∀ y, p y = true → le x y = true) (l : List α) :
    (insertBy le x l).filter p = x :: l.filter p := by
  induction l with
  | nil => simp [insertBy, hx]
  | cons y ys ih =>
      cases hxy : le x y with
      | true => simp [insertBy, hxy, List.filter_cons, hx]
      | false =>
          have hpy : p y = false := by
            cases hpy : p y with
            | true => rw [hcomp y hpy] at hxy; cases hxy
            | false => rfl
          simp [insertBy, hxy, List.filter_cons, hpy, ih]

theorem filter_insertBy_neg (le : α → α → Bool) (p : α → Bool) (x : α)
    (hx : p x = false) (l : List α) :
    (insertBy le x l).filter p = l.filter p := by
  induction l with
  | nil => simp [insertBy, hx]
  | cons y ys ih =>
      cases hxy : le x y <;> simp [insertBy, hxy, List.filter_cons, hx, ih]

theorem filter_sortBy (le : α → α → Bool) (p : α → Bool)
    (hclass : ∀ a b, p a = true → p b = true → le a b = true) (l : List α) :
    (sortBy le l).filter p = l.filter p := by
  induction l with
  | nil => rfl
  | cons x xs ih =>
      cases hx : p x with
      | true =>
          show (insertBy le x (sortBy le xs)).filter p = _
          rw [filter_insertBy_pos le p x hx (fun y hy => hclass x y hx hy), ih]
          simp [List.filter_cons, hx]
      | false =>
          show (insertBy le x (sortBy le xs)).filter p = _
          rw [filter_insertBy_neg le p x hx, ih]
          simp [List.filter_cons, hx]

/-- C1 (counterexample): in Scenario A — alice records 100, 90, 95 on b1, i1,
a1 — the claim's expected `skill_level = "beginner"` is false: the third
attempt has average 95 ≥ 70 with attempts 3 ≥ 3, so the intermediate branch
of the recomputation fires and alice's level is "intermediate". -/
theorem scenarioA_skill_not_beginner :
    findUser scenarioAStore.users "alice" = some scenarioAAlice ∧
    scenarioAAlice.skill_level = "intermediate" ∧
    scenarioAAlice.skill_level ≠ "beginner" :=
  ⟨by decide, by decide, by decide⟩

/-- C1 (amended): after Scenario A, alice's record has total_score 285,
attempts 3, skill_level "intermediate" (not "beginner"), and her badge set
contains "Perfect Score". -/
theorem scenarioA_alice_stats :
    findUser scenarioAStore.users "alice" = some scenarioAAlice ∧
    scenarioAAlice.total_score = 285 ∧
    scenarioAAlice.attempts = 3 ∧
    scenarioAAlice.skill_level = "intermediate" ∧
    "Perfect Score" ∈ scenarioAAlice.badges :=
  ⟨by decide, by decide, by decide, by decide, by decide⟩

/-- C10: `record_attempt` performs no range validation on the score: for any
integer score whatsoever (negative or above 100 included), the attempt is
appended to the user's history carrying that score verbatim and the score is
added to `total_score` unchanged. -/
theorem recordAttempt_score_verbatim (s : StoreDoc) (now name scenarioId : String)
    (score : Int) (ev : EvalRecord) (prompt : String) :
    (findUser (recordAttempt now name scenarioId score ev prompt s).users name).map
        (fun r => (r.history, r.total_score)) =
      some (((findUser s.users name).getD freshUser).history ++
              [{ timestamp := now, scenario_id := scenarioId, score := score,
                 evaluation := ev, user_prompt := prompt }],
            ((findUser s.users name).getD freshUser).total_score + score) := by
  rw [findUser_recordAttempt_self]
  rfl

theorem bumpUser_skill (now scenarioId : String) (score : Int) (ev : EvalRecord)
    (prompt : String) (u : UserRecord) :
    (bumpUser now scenarioId score ev prompt u).skill_level = "advanced" ∨
    (bumpUser now scenarioId score ev prompt u).skill_level = "intermediate" ∨
    (bumpUser now scenarioId score ev prompt u).skill_level = u.skill_level := by
  simp only [bumpUser]
  split_ifs <;> simp

theorem applyOp_skill (s : StoreDoc) (op : Op) (name : String) (r : UserRecord)
    (h : findUser s.users name = some r) :
    ∃ rr, findUser (applyOp s op).users name = some rr ∧
      (rr.skill_level = "advanced" ∨ rr.skill_level = "intermediate" ∨
       rr.skill_level = r.skill_level) := by
  cases op with
  | add m =>
      by_cases hm : name = m
      · subst hm
        refine ⟨r, ?_, Or.inr (Or.inr rfl)⟩
        show findUser (addUser name s).users name = some r
        rw [findUser_addUser_self, h]
        rfl
      · refine ⟨r, ?_, Or.inr (Or.inr rfl)⟩
        show findUser (addUser m s).users name = some r
        rw [findUser_addUser_ne s hm]
        exact h
  | record now m scenarioId score ev prompt =>
      by_cases hm : name = m
      · subst hm
        have hu : (findUser s.users name).getD freshUser = r := by rw [h]; rfl
        refine ⟨_, findUser_recordAttempt_self now name scenarioId score ev prompt s, ?_⟩
        rw [hu]
        exact bumpUser_skill now scenarioId score ev prompt r
      · refine ⟨r, ?_, Or.inr (Or.inr rfl)⟩
        show findUser (recordAttempt now m scenarioId score ev prompt s).users name = some r
        rw [findUser_recordAttempt_ne now scenarioId score ev prompt s hm]
        exact h

theorem applyOps_skill (ops : List Op) (s : StoreDoc) (name : String) (r : UserRecord)
    (h : findUser s.users name = some r) :
    ∃ rr, findUser (applyOps ops s).users name = some rr ∧
      (rr.skill_level = "advanced" ∨ rr.skill_level = "intermediate" ∨
       rr.skill_level = r.skill_level) := by
  induction ops generalizing s r with
  | nil => exact ⟨r, h, Or.inr (Or.inr rfl)⟩
  | cons op ops ih =>
      rcases applyOp_skill s op name r h with ⟨r1, h1, hsk1⟩
      rcases ih (applyOp s op) r1 h1 with ⟨r2, h2, hsk2⟩
      refine ⟨r2, h2, ?_⟩
      rcases hsk2 with h2a | h2b | h2eq
      · exact Or.inl h2a
      · exact Or.inr (Or.inl h2b)
      · rw [h2eq]; exact hsk1

/-- C9: once a user's skill_level is "intermediate" or "advanced" (anything
other than "beginner"), no further sequence of operations ever yields
"beginner" again, because each recomputation either assigns "advanced" or
"intermediate" or leaves the level unchanged. -/
theorem skill_never_beginner_again (s : StoreDoc) (name : String) (r : UserRecord)
    (h : findUser s.users name = some r) (hb : r.skill_level ≠ "beginner") :
    (∀ ops rr, findUser (applyOps ops s).users name = some rr →
       rr.skill_level ≠ "beginner") ∧
    (∀ op rr, findUser (applyOp s op).users name = some rr →
       rr.skill_level = "advanced" ∨ rr.skill_level = "intermediate" ∨
       rr.skill_level = r.skill_level) := by
  constructor
  · intro ops rr hrr
    rcases applyOps_skill ops s name r h with ⟨r2, h2, hsk⟩
    have hr2 : r2 = rr := by
      rw [hrr] at h2
      exact (Option.some.inj h2).symm
    subst hr2
    rcases hsk with ha | hi | he
    · rw [ha]; decide
    · rw [hi]; decide
    · rw [he]; exact hb
  · intro op rr hrr
    rcases applyOp_skill s op name r h with ⟨r1, h1, hsk⟩
    have hr1 : r1 = rr := by
      rw [hrr] at h1
      exact (Option.some.inj h1).symm
    subst hr1
    exact hsk

/-- C9 witness: alice leaves Scenario A at "intermediate"; one more recorded
attempt (score 0) still leaves her level different from "beginner". -/
theorem skill_never_beginner_again_witness :
    afterMoreOpsAlice.skill_level ≠ "beginner" :=
  (skill_never_beginner_again scenarioAStore "alice" scenarioAAlice (by decide)
      (by decide)).1
    [Op.record "t4" "alice" "b2" 0 evalZero ""] afterMoreOpsAlice (by decide)

theorem scoresConsistent_empty : ScoresConsistent emptyStore := by
  intro name r h
  simp [findUser, emptyStore] at h

theorem bumpUser_consistent (now scenarioId : String) (score : Int) (ev : EvalRecord)
    (prompt : String) (u : UserRecord)
    (h1 : u.total_score = (u.history.map (fun a => a.score)).sum)
    (h2 : u.attempts = u.history.length) :
    (bumpUser now scenarioId score ev prompt u).total_score =
      ((bumpUser now scenarioId score ev prompt u).history.map (fun a => a.score)).sum ∧
    (bumpUser now scenarioId score ev prompt u).attempts =
      (bumpUser now scenarioId score ev prompt u).history.length := by
  constructor
  · simp [bumpUser, h1]
  · simp [bumpUser, h2]

theorem scoresConsistent_applyOp (s : StoreDoc) (op : Op) (h : ScoresConsistent s) :
    ScoresConsistent (applyOp s op) := by
  cases op with
  | add m =>
      intro name r hr
      by_cases hm : name = m
      · subst hm
        rw [show applyOp s (Op.add name) = addUser name s from rfl,
            findUser_addUser_self] at hr
        have hr' : (findUser s.users name).getD freshUser = r := Option.some.inj hr
        cases hf : findUser s.users name with
        | some u =>
            rw [hf] at hr'
            simp only [Option.getD_some] at hr'
            rw [← hr']
            exact h name u hf
        | none =>
            rw [hf] at hr'
            simp only [Option.getD_none] at hr'
            rw [← hr']
            simp [freshUser]
      · rw [show applyOp s (Op.add m) = addUser m s from rfl,
            findUser_addUser_ne s hm] at hr
        exact h name r hr
  | record now m scenarioId score ev prompt =>
      intro name r hr
      by_cases hm : name = m
      · subst hm
        rw [show applyOp s (Op.record now name scenarioId score ev prompt) =
              recordAttempt now name scenarioId score ev prompt s from rfl,
            findUser_recordAttempt_self] at hr
        have hr' := Option.some.inj hr
        have hcons : ((findUser s.users name).getD freshUser).total_score =
            (((findUser s.users name).getD freshUser).history.map (fun a => a.score)).sum ∧
            ((findUser s.users name).getD freshUser).attempts =
            ((findUser s.users name).getD freshUser).history.length := by
          cases hf : findUser s.users name with
          | some u => simpa using h name u hf
          | none => simp [freshUser]
        rw [← hr']
        exact bumpUser_consistent now scenarioId score ev prompt _ hcons.1 hcons.2
      · rw [show applyOp s (Op.record now m scenarioId score ev prompt) =
              recordAttempt now m scenarioId score ev prompt s from rfl,
            findUser_recordAttempt_ne now scenarioId score ev prompt s hm] at hr
        exact h name r hr

theorem scoresConsistent_applyOps (ops : List Op) (s : StoreDoc) (h : ScoresConsistent s) :
    ScoresConsistent (applyOps ops s) := by
  induction ops generalizing s with
  | nil => exact h
  | cons op ops ih => exact ih (applyOp s op) (scoresConsistent_applyOp s op h)

/-- C6: after any sequence of add_user / record_attempt operations from the
empty store, every stored user's `total_score` equals the sum of the scores in
their history and their `attempts` counter equals the history length. -/
theorem total_matches_history (ops : List Op) (name : String) (r : UserRecord)
    (h : findUser (applyOps ops emptyStore).users name = some r) :
    r.total_score = (r.history.map (fun a => a.score)).sum ∧
    r.attempts = r.history.length :=
  scoresConsistent_applyOps ops emptyStore scoresConsistent_empty name r h

/-- C6 witness: the invariant instantiated on the Scenario A store. -/
theorem total_matches_history_witness :
    scenarioAAlice.total_score = (scenarioAAlice.history.map (fun a => a.score)).sum ∧
    scenarioAAlice.attempts = scenarioAAlice.history.length :=
  total_matches_history scenarioAOps "alice" scenarioAAlice (by decide)

theorem lbConsistent_empty : LeaderboardConsistent emptyStore := by
  intro name
  simp [lbCount, emptyStore, findUser]

theorem lbConsistent_addUser (m : String) (s : StoreDoc) (h : LeaderboardConsistent s) :
    LeaderboardConsistent (addUser m s) := by
  intro name
  have hc : lbCount (addUser m s) name = lbCount s name := by
    simp [lbCount, leaderboard_addUser]
  rw [hc]
  by_cases hm : name = m
  · subst hm
    rw [findUser_addUser_self]
    have hh := h name
    cases hf : findUser s.users name with
    | some u => rw [hf] at hh; simpa using hh
    | none => rw [hf] at hh; simpa [freshUser] using hh
  · rw [findUser_addUser_ne s hm]
    exact h name

theorem lbConsistent_recordAttempt (now m scenarioId : String) (score : Int)
    (ev : EvalRecord) (prompt : String) (s : StoreDoc) (h : LeaderboardConsistent s) :
    LeaderboardConsistent (recordAttempt now m scenarioId score ev prompt s) := by
  intro name
  have hcount : lbCount (recordAttempt now m scenarioId score ev prompt s) name =
      List.countP (fun e => e.username == name)
        ((s.leaderboard.filter (fun e => !(e.username == m))) ++
          [lbEntryOf m (bumpUser now scenarioId score ev prompt
              ((findUser s.users m).getD freshUser))]) := by
    rw [lbCount, leaderboard_recordAttempt]
    exact List.Perm.countP_eq _ (sortBy_perm lbLe _)
  rw [hcount, List.countP_append]
  by_cases hm : name = m
  · subst hm
    have h0 : List.countP (fun e => e.username == name)
        (s.leaderboard.filter (fun e => !(e.username == name))) = 0 := by
      rw [List.countP_eq_zero]
      intro e he
      have hq := (List.mem_filter.mp he).2
      simp only [Bool.not_eq_eq_eq_not, Bool.not_true] at hq
      simp [hq]
    rw [h0, findUser_recordAttempt_self]
    simp [lbEntryOf, bumpUser]
  · have hfilter : List.countP (fun e => e.username == name)
        (s.leaderboard.filter (fun e => !(e.username == m))) = lbCount s name := by
      rw [List.countP_filter, lbCount]
      apply List.countP_congr
      intro e _
      constructor
      · intro hpq
        exact ((Bool.and_eq_true _ _).mp hpq).1
      · intro hp
        have hename : e.username = name := by simpa using hp
        have hne : (e.username == m) = false := by
          rw [hename]
          exact beq_eq_false_iff_ne.mpr hm
        simp [hp, hne]
    have hentry : List.countP (fun e => e.username == name)
        [lbEntryOf m (bumpUser now scenarioId score ev prompt
            ((findUser s.users m).getD freshUser))] = 0 := by
      simp [lbEntryOf, beq_eq_false_iff_ne.mpr (Ne.symm hm)]
    rw [hfilter, hentry, findUser_recordAttempt_ne now scenarioId score ev prompt s hm]
    simpa using h name

theorem lbConsistent_applyOps (ops : List Op) (s : StoreDoc)
    (h : LeaderboardConsistent s) : LeaderboardConsistent (applyOps ops s) := by
  induction ops generalizing s with
  | nil => exact h
  | cons op ops ih =>
      refine ih (applyOp s op) ?_
      cases op with
      | add m => exact lbConsistent_addUser m s h
      | record now m scenarioId score ev prompt =>
          exact lbConsistent_recordAttempt now m scenarioId score ev prompt s h

/-- C5 (counterexample): `add_user` alone registers a user in `users` but
never touches the leaderboard, so a store can hold a user key with no
leaderboard entry — the claimed one-entry-per-user-key invariant fails. -/
theorem add_user_missing_from_leaderboard :
    findUser (applyOps [Op.add "alice"] emptyStore).users "alice" = some freshUser ∧
    lbCount (applyOps [Op.add "alice"] emptyStore) "alice" = 0 :=
  ⟨by decide, by decide⟩

/-- C5 (amended): after any sequence of operations from the empty store, the
leaderboard holds exactly one entry for each stored user with at least one
recorded attempt and no entry for zero-attempt or absent users. -/
theorem leaderboard_entry_per_active_user (ops : List Op) (name : String) :
    lbCount (applyOps ops emptyStore) name =
      match findUser (applyOps ops emptyStore).users name with
      | some r => if 0 < r.attempts then 1 else 0
      | none => 0 :=
  lbConsistent_applyOps ops emptyStore lbConsistent_empty name

theorem lbLe_trans (a b c : LBEntry) (h1 : lbLe a b = true) (h2 : lbLe b c = true) :
    lbLe a c = true := by
  simp only [lbLe, decide_eq_true_eq] at h1 h2 ⊢
  exact le_trans h2 h1

theorem lbLe_total (a b : LBEntry) : lbLe a b = true ∨ lbLe b a = true := by
  simp only [lbLe, decide_eq_true_eq]
  exact le_total b.avg_score a.avg_score

/-- C7: after `_update_leaderboard(name)` the leaderboard is sorted in
descending order of `avg_score`, and among the entries whose `avg_score` ties
the updated user's fresh entry, that fresh entry sorts after all the others
(their previous relative order preserved): ties are broken by recency.  In
particular, for Scenario D — x at average 80 updated, then y at average 80
updated — y lands after x (see the witness). -/
theorem updateLeaderboard_sorted_ties_last (s : StoreDoc) (name : String)
    (u : UserRecord) (h : findUser s.users name = some u) :
    (updateLeaderboard name s).leaderboard.Pairwise
        (fun a b => b.avg_score ≤ a.avg_score) ∧
    (updateLeaderboard name s).leaderboard.filter
        (fun e => e.avg_score == (lbEntryOf name u).avg_score) =
      ((s.leaderboard.filter (fun e => !(e.username == name))).filter
        (fun e => e.avg_score == (lbEntryOf name u).avg_score)) ++ [lbEntryOf name u] := by
  have hlb : (updateLeaderboard name s).leaderboard =
      sortBy lbLe ((s.leaderboard.filter (fun e => !(e.username == name))) ++
        [lbEntryOf name u]) := by
    simp [updateLeaderboard, h]
  constructor
  · rw [hlb]
    exact (sortBy_pairwise lbLe lbLe_trans lbLe_total _).imp
      (fun hab => by simpa [lbLe, decide_eq_true_eq] using hab)
  · rw [hlb, filter_sortBy lbLe _ ?_, List.filter_append]
    · simp
    · intro a b ha hb
      have ha' : a.avg_score = (lbEntryOf name u).avg_score := by simpa using ha
      have hb' : b.avg_score = (lbEntryOf name u).avg_score := by simpa using hb
      simp [lbLe, ha', hb']

/-- C7 witness: Scenario D.  With x's and y's records both averaging 80 and
the leaderboard still holding x's entry, updating y yields a sorted
leaderboard whose tie class ends with y's entry; concretely the username
column reads x then y. -/
theorem updateLeaderboard_sorted_ties_last_witness :
    ((updateLeaderboard "y" scenDStore).leaderboard.Pairwise
        (fun a b => b.avg_score ≤ a.avg_score) ∧
     (updateLeaderboard "y" scenDStore).leaderboard.filter
        (fun e => e.avg_score == (lbEntryOf "y" scenDyRec).avg_score) =
       ((scenDStore.leaderboard.filter (fun e => !(e.username == "y"))).filter
        (fun e => e.avg_score == (lbEntryOf "y" scenDyRec).avg_score)) ++
         [lbEntryOf "y" scenDyRec]) ∧
    (updateLeaderboard "y" scenDStore).leaderboard.map (fun e => e.username) =
      ["x", "y"] :=
  ⟨updateLeaderboard_sorted_ties_last scenDStore "y" scenDyRec (by decide), by decide⟩

theorem charListLe_refl (xs : List Char) : charListLe xs xs = true := by
  induction xs with
  | nil => rfl
  | cons c cs ih => simp [charListLe, lt_irrefl, ih]

theorem charListLe_total (xs : List Char) : ∀ ys, charListLe xs ys = true ∨
    charListLe ys xs = true := by
  induction xs with
  | nil => intro ys; left; rfl
  | cons c cs ih =>
      intro ys
      cases ys with
      | nil => right; rfl
      | cons d ds =>
          rcases lt_trichotomy c d with h | h | h
          · left; simp [charListLe, h]
          · subst h
            rcases ih ds with hh | hh
            · left; simp [charListLe, lt_irrefl, hh]
            · right; simp [charListLe, lt_irrefl, hh]
          · right; simp [charListLe, h]

theorem charListLe_trans : ∀ (xs ys zs : List Char), charListLe xs ys = true →
    charListLe ys zs = true → charListLe xs zs = true
  | [], _, _, _, _ => rfl
  | _ :: _, [], _, h1, _ => by simp [charListLe] at h1
  | _ :: _, _ :: _, [], _, h2 => by simp [charListLe] at h2
  | c :: cs, d :: ds, e :: es, h1, h2 => by
      rcases lt_trichotomy c d with hcd | hcd | hcd
      · rcases lt_trichotomy d e with hde | hde | hde
        · simp [charListLe, lt_trans hcd hde]
        · subst hde; simp [charListLe, hcd]
        · exfalso; simp [charListLe, lt_asymm hde, hde] at h2
      · subst hcd
        rw [charListLe, if_neg (lt_irrefl c), if_neg (lt_irrefl c)] at h1
        rcases lt_trichotomy c e with hce | hce | hce
        · simp [charListLe, hce]
        · subst hce
          rw [charListLe, if_neg (lt_irrefl c), if_neg (lt_irrefl c)] at h2 ⊢
          exact charListLe_trans cs ds es h1 h2
        · exfalso; simp [charListLe, lt_asymm hce, hce] at h2
      · exfalso; simp [charListLe, lt_asymm hcd, hcd] at h1

theorem charListLe_antisymm : ∀ (xs ys : List Char), charListLe xs ys = true →
    charListLe ys xs = true → xs = ys
  | [], [], _, _ => rfl
  | [], _ :: _, _, h2 => by simp [charListLe] at h2
  | _ :: _, [], h1, _ => by simp [charListLe] at h1
  | c :: cs, d :: ds, h1, h2 => by
      rcases lt_trichotomy c d with hcd | hcd | hcd
      · exfalso; simp [charListLe, lt_asymm hcd, hcd] at h2
      · subst hcd
        rw [charListLe, if_neg (lt_irrefl c), if_neg (lt_irrefl c)] at h1 h2
        rw [charListLe_antisymm cs ds h1 h2]
      · exfalso; simp [charListLe, lt_asymm hcd, hcd] at h1

theorem strLe_refl (a : String) : strLe a a = true := charListLe_refl a.data

theorem strLe_total (a b : String) : strLe a b = true ∨ strLe b a = true :=
  charListLe_total a.data b.data

theorem strLe_trans (a b c : String) (h1 : strLe a b = true) (h2 : strLe b c = true) :
    strLe a c = true :=
  charListLe_trans a.data b.data c.data h1 h2

theorem strLe_antisymm (a b : String) (h1 : strLe a b = true) (h2 : strLe b a = true) :
    a = b := by
  have hd := charListLe_antisymm a.data b.data h1 h2
  cases a
  cases b
  exact congrArg String.mk hd

theorem rowLe_total (a b : Row) : rowLe a b = true ∨ rowLe b a = true := by
  by_cases h : a.username = b.username
  · rw [rowLe, if_pos h, rowLe, if_pos h.symm]
    exact strLe_total a.timestamp b.timestamp
  · rw [rowLe, if_neg h, rowLe, if_neg (Ne.symm h)]
    exact strLe_total a.username b.username

theorem rowLe_trans (a b c : Row) (h1 : rowLe a b = true) (h2 : rowLe b c = true) :
    rowLe a c = true := by
  by_cases hab : a.username = b.username
  · by_cases hbc : b.username = c.username
    · rw [rowLe, if_pos hab] at h1
      rw [rowLe, if_pos hbc] at h2
      rw [rowLe, if_pos (hab.trans hbc)]
      exact strLe_trans _ _ _ h1 h2
    · have hac : a.username ≠ c.username := by rw [hab]; exact hbc
      rw [rowLe, if_neg hbc, ← hab] at h2
      rw [rowLe, if_neg hac]
      exact h2
  · by_cases hbc : b.username = c.username
    · have hac : a.username ≠ c.username := by rw [← hbc]; exact hab
      rw [rowLe, if_neg hab, hbc] at h1
      rw [rowLe, if_neg hac]
      exact h1
    · rw [rowLe, if_neg hab] at h1
      rw [rowLe, if_neg hbc] at h2
      by_cases hac : a.username = c.username
      · exfalso
        rw [← hac] at h2
        exact hab (strLe_antisymm _ _ h1 h2)
      · rw [rowLe, if_neg hac]
        exact strLe_trans _ _ _ h1 h2

theorem userRows_username (p : String × UserRecord) (r : Row) (h : r ∈ userRows p) :
    r.username = p.1 := by
  unfold userRows at h
  by_cases hh : p.2.history = []
  · rw [if_pos hh, List.mem_singleton] at h
    rw [h]
    rfl
  · rw [if_neg hh, List.mem_map] at h
    rcases h with ⟨a, _, rfl⟩
    rfl

theorem userRows_timestamp (p : String × UserRecord) (r : Row) (h : r ∈ userRows p)
    (hne : p.2.history ≠ []) (hts : ∀ a ∈ p.2.history, a.timestamp ≠ "") :
    r.timestamp ≠ "" := by
  unfold userRows at h
  rw [if_neg hne, List.mem_map] at h
  rcases h with ⟨a, ha, rfl⟩
  exact hts a ha

theorem usersRows_mem_username (l : List (String × UserRecord)) (r : Row)
    (h : r ∈ usersRows l) : r.username ∈ l.map Prod.fst := by
  unfold usersRows at h
  rcases List.mem_flatMap.mp h with ⟨p, hp, hr⟩
  rw [userRows_username p r hr]
  exact List.mem_map_of_mem Prod.fst hp

theorem pairwise_usersRows (l : List (String × UserRecord))
    (hts : ∀ p ∈ l, ∀ a ∈ p.2.history, a.timestamp ≠ "")
    (hkeys : (l.map Prod.fst).Nodup) :
    (usersRows l).Pairwise
      (fun r1 r2 => r1.username = r2.username →
        r1.timestamp ≠ "" ∧ r2.timestamp ≠ "") := by
  induction l with
  | nil => simp [usersRows]
  | cons p ps ih =>
      rw [List.map_cons, List.nodup_cons] at hkeys
      show (userRows p ++ usersRows ps).Pairwise _
      rw [List.pairwise_append]
      refine ⟨?_, ih (fun q hq => hts q (List.mem_cons_of_mem p hq)) hkeys.2, ?_⟩
      · by_cases hh : p.2.history = []
        · simp [userRows, hh]
        · apply List.pairwise_of_forall_mem_list
          intro r1 h1 r2 h2 _
          exact ⟨userRows_timestamp p r1 h1 hh (hts p (List.mem_cons_self p ps)),
                 userRows_timestamp p r2 h2 hh (hts p (List.mem_cons_self p ps))⟩
      · intro r1 h1 r2 h2 heq
        exfalso
        have h1u := userRows_username p r1 h1
        have h2u := usersRows_mem_username ps r2 h2
        rw [← heq, h1u] at h2u
        exact hkeys.1 h2u

theorem exportToCsv_eq_sorted (doc : StoreDoc) (rows : List Row)
    (h : exportToCsv doc = some rows) :
    rows = sortBy rowLe (usersRows doc.users) := by
  unfold exportToCsv at h
  by_cases hne : usersRows doc.users = []
  · simp [hne] at h
  · simp only [hne, if_neg hne] at h
    exact (Option.some.inj h).symm

/-- C3: for every store whose recorded attempts all carry non-empty
timestamps and whose user keys are distinct (both true of every store the
tracker builds, since attempts are stamped with `datetime.now().isoformat()`
and `users` is a dict), the export is ordered by username and then timestamp,
and a row with an empty timestamp (a zero-attempt placeholder) is never
followed by a row of the same username — in particular it never precedes a
non-empty-timestamp row of that username, i.e. placeholders sort after all
timestamped rows of their user (vacuously, as such a user has no other
rows). -/
theorem export_rows_sorted (doc : StoreDoc)
    (hts : ∀ p ∈ doc.users, ∀ a ∈ p.2.history, a.timestamp ≠ "")
    (hkeys : (doc.users.map Prod.fst).Nodup)
    (rows : List Row) (h : exportToCsv doc = some rows) :
    rows.Pairwise (fun a b => strLe a.username b.username = true ∧
      (a.username = b.username → strLe a.timestamp b.timestamp = true)) ∧
    rows.Pairwise (fun a b => a.username = b.username →
      a.timestamp = "" → b.timestamp = "") := by
  rw [exportToCsv_eq_sorted doc rows h]
  constructor
  · refine (sortBy_pairwise rowLe rowLe_trans rowLe_total _).imp ?_
    intro a b hab
    by_cases he : a.username = b.username
    · exact ⟨he ▸ strLe_refl a.username, fun _ => by
        rw [rowLe, if_pos he] at hab
        exact hab⟩
    · refine ⟨?_, fun hc => absurd hc he⟩
      rw [rowLe, if_neg he] at hab
      exact hab
  · have hperm := sortBy_perm rowLe (usersRows doc.users)
    have hsym : ∀ {x y : Row},
        (x.username = y.username → x.timestamp ≠ "" ∧ y.timestamp ≠ "") →
        (y.username = x.username → y.timestamp ≠ "" ∧ x.timestamp ≠ "") := by
      intro x y hxy heq
      exact ⟨(hxy heq.symm).2, (hxy heq.symm).1⟩
    have hp := (List.Perm.pairwise_iff hsym hperm).mpr
      (pairwise_usersRows doc.users hts hkeys)
    refine hp.imp ?_
    intro a b hab heq hae
    exact absurd hae (hab heq).1

/-- C3 witness: the Scenario A store satisfies both well-formedness
hypotheses and its export is sorted as claimed. -/
theorem export_rows_sorted_witness :
    scenarioARows.Pairwise (fun a b => strLe a.username b.username = true ∧
      (a.username = b.username → strLe a.timestamp b.timestamp = true)) ∧
    scenarioARows.Pairwise (fun a b => a.username = b.username →
      a.timestamp = "" → b.timestamp = "") :=
  export_rows_sorted scenarioAStore (by decide) (by decide) scenarioARows (by decide)

theorem usersRows_filter_name (l : List (String × UserRecord)) (name : String)
    (d : UserRecord) (hmem : (name, d) ∈ l) (hkeys : (l.map Prod.fst).Nodup) :
    (usersRows l).filter (fun r => r.username == name) = userRows (name, d) := by
  induction l with
  | nil => cases hmem
  | cons p ps ih =>
      rw [List.map_cons, List.nodup_cons] at hkeys
      show (userRows p ++ usersRows ps).filter (fun r => r.username == name) = _
      rw [List.filter_append]
      rcases List.mem_cons.mp hmem with heq | hmem'
      · have hall : (userRows p).filter (fun r => r.username == name) = userRows p := by
          rw [List.filter_eq_self]
          intro r hr
          rw [userRows_username p r hr, ← heq]
          exact beq_self_eq_true name
        have hnone : (usersRows ps).filter (fun r => r.username == name) = [] := by
          rw [List.filter_eq_nil_iff]
          intro r hr hrn
          have hru : r.username = name := by simpa using hrn
          have := usersRows_mem_username ps r hr
          rw [hru, show name = p.1 from congrArg Prod.fst heq] at this
          exact hkeys.1 this
        rw [hall, hnone, List.append_nil, ← heq]
      · have hp1 : p.1 ≠ name := by
          intro hc
          apply hkeys.1
          rw [hc]
          exact List.mem_map_of_mem Prod.fst hmem'
        have hfp : (userRows p).filter (fun r => r.username == name) = [] := by
          rw [List.filter_eq_nil_iff]
          intro r hr hrn
          have hru : r.username = name := by simpa using hrn
          rw [userRows_username p r hr] at hru
          exact hp1 hru
        rw [hfp, List.nil_append]
        exact ih hmem' hkeys.2

/-- C4 (counterexample): exporting a store holding one registered user with
zero attempts yields exactly one placeholder row, but its `feedback_summary`
column is the constant string "No attempts yet", not the empty string the
claim asserts for all text columns. -/
theorem placeholder_feedback_not_empty :
    exportToCsv zeroAttemptStore = some [placeholderRow "carol" freshUser] ∧
    (placeholderRow "carol" freshUser).feedback_summary = "No attempts yet" ∧
    (placeholderRow "carol" freshUser).feedback_summary ≠ "" :=
  ⟨by decide, by decide, by decide⟩

/-- C4 (amended): for every zero-attempt user of a well-formed store
(distinct user keys; the record all-zero as `add_user` creates it), the
export contains exactly one row for that user: the placeholder with all
score-valued columns zero and all text columns empty, except
`feedback_summary`, which is "No attempts yet". -/
theorem zero_attempt_placeholder_row (doc : StoreDoc) (name : String) (d : UserRecord)
    (hmem : (name, d) ∈ doc.users) (hkeys : (doc.users.map Prod.fst).Nodup)
    (hhist : d.history = []) (hatt : d.attempts = 0) (htot : d.total_score = 0)
    (rows : List Row) (h : exportToCsv doc = some rows) :
    rows.filter (fun r => r.username == name) = [placeholderRow name d] ∧
    placeholderRow name d =
      { username := name, timestamp := "", scenario_id := "", total_score := 0,
        clarity_score := 0, specificity_score := 0, structure_score := 0,
        task_alignment_score := 0, skill_level := d.skill_level, total_attempts := 0,
        cumulative_score := 0, avg_score := 0, badges_count := d.badges.length,
        badges := joinOrEmpty ", " d.badges, user_prompt := "", strengths := "",
        improvements := "", feedback_summary := "No attempts yet" } := by
  constructor
  · rw [exportToCsv_eq_sorted doc rows h]
    have h1 : (usersRows doc.users).filter (fun r => r.username == name) =
        [placeholderRow name d] := by
      rw [usersRows_filter_name doc.users name d hmem hkeys]
      unfold userRows
      rw [if_pos hhist]
    have hperm := (sortBy_perm rowLe (usersRows doc.users)).filter
      (fun r => r.username == name)
    rw [h1] at hperm
    exact List.perm_singleton.mp hperm
  · simp [placeholderRow, hatt, htot]

/-- C4 witness: the amended statement instantiated on a store holding the
single zero-attempt user "carol". -/
theorem zero_attempt_placeholder_row_witness :
    zeroAttemptRows.filter (fun r => r.username == "carol") =
      [placeholderRow "carol" freshUser] ∧
    placeholderRow "carol" freshUser =
      { username := "carol", timestamp := "", scenario_id := "", total_score := 0,
        clarity_score := 0, specificity_score := 0, structure_score := 0,
        task_alignment_score := 0, skill_level := freshUser.skill_level,
        total_attempts := 0, cumulative_score := 0, avg_score := 0,
        badges_count := freshUser.badges.length,
        badges := joinOrEmpty ", " freshUser.badges, user_prompt := "",
        strengths := "", improvements := "", feedback_summary := "No attempts yet" } :=
  zero_attempt_placeholder_row zeroAttemptStore "carol" freshUser (by decide) (by decide)
    (by decide) (by decide) (by decide) zeroAttemptRows (by decide)

/-- C2 (counterexample): a parseable file missing the required fields (here
`{"foo": "bar"}`) makes `_load_data` return the fresh empty store, but no
backup is written — the backup copy happens only in the `JSONDecodeError`
handler, which a structurally invalid but parseable file never reaches. -/
theorem load_structurally_invalid_no_backup :
    isValidStore malformedJson = false ∧
    (loadData (FileContent.parsed malformedJson)).doc = emptyStoreJson ∧
    (loadData (FileContent.parsed malformedJson)).backup = none :=
  ⟨rfl, rfl, rfl⟩

/-- C2 (amended): loading invalid content always yields the fresh empty
store, but a backup holding the original bytes is produced only for
unparseable content; a parseable document failing the `users`/`leaderboard`
structural check yields the fresh store with no backup. -/
theorem load_invalid_content (raw : String) (j : Json) (hj : isValidStore j = false) :
    loadData (FileContent.unparseable raw) =
      { doc := emptyStoreJson, backup := some raw } ∧
    loadData (FileContent.parsed j) = { doc := emptyStoreJson, backup := none } := by
  refine ⟨rfl, ?_⟩
  simp [loadData, hj]

/-- C2 witness: the amended behaviour instantiated on concrete junk content
and on the concrete structurally invalid document. -/
theorem load_invalid_content_witness :
    loadData (FileContent.unparseable "not-valid-json") =
      { doc := emptyStoreJson, backup := some "not-valid-json" } ∧
    loadData (FileContent.parsed malformedJson) =
      { doc := emptyStoreJson, backup := none } :=
  load_invalid_content "not-valid-json" malformedJson rfl

theorem mapMOpt_map (f : α → Option β) (g : β → α) (l : List β)
    (h : ∀ b ∈ l, f (g b) = some b) : mapMOpt f (l.map g) = some l := by
  induction l with
  | nil => rfl
  | cons x xs ih =>
      rw [List.map_cons, mapMOpt, h x (List.mem_cons_self x xs),
          ih (fun b hb => h b (List.mem_cons_of_mem x hb))]

theorem jStr?_str (s : String) : jStr? (Json.str s) = some s := rfl

theorem jInt?_intCast (i : Int) : jInt? (Json.num (i : ℚ)) = some i := by
  simp [jInt?, Rat.den_intCast, Rat.num_intCast]

theorem jNat?_natCast (n : Nat) : jNat? (Json.num (n : ℚ)) = some n := by
  simp [jNat?, Rat.den_natCast, Rat.num_natCast]

theorem jCenti?_div (k : Int) : jCenti? (Json.num ((k : ℚ) / 100)) = some k := by
  have h : ((k : ℚ) / 100) * 100 = (k : ℚ) := by
    rw [div_mul_cancel₀]
    norm_num
  simp [jCenti?, h, Rat.den_intCast, Rat.num_intCast]

theorem jStrList?_strs (xs : List String) :
    jStrList? (Json.arr (xs.map Json.str)) = some xs := by
  rw [jStrList?]
  exact mapMOpt_map jStr? Json.str xs (fun b _ => rfl)

theorem decodeEval_encodeEval (e : EvalRecord) : decodeEval (encodeEval e) = some e := by
  simp [decodeEval, encodeEval, jLookup, List.find?, jInt?_intCast, jStr?_str,
        jStrList?_strs, Rat.den_intCast, Rat.num_intCast, jInt?]

theorem decodeAttempt_encodeAttempt (a : Attempt) :
    decodeAttempt (encodeAttempt a) = some a := by
  simp [decodeAttempt, encodeAttempt, jLookup, List.find?, jInt?_intCast, jStr?_str,
        decodeEval_encodeEval, Rat.den_intCast, Rat.num_intCast, jInt?]

theorem decodeUser_encodeUser (u : UserRecord) : decodeUser (encodeUser u) = some u := by
  simp [decodeUser, encodeUser, jLookup, List.find?, jInt?_intCast, jStr?_str,
        jStrList?_strs, jNat?_natCast,
        mapMOpt_map decodeAttempt encodeAttempt u.history
          (fun b _ => decodeAttempt_encodeAttempt b),
        Rat.den_intCast, Rat.num_intCast, jInt?]

theorem decodeLB_encodeLB (e : LBEntry) : decodeLB (encodeLB e) = some e := by
  simp [decodeLB, encodeLB, jLookup, List.find?, jStr?_str, jNat?_natCast,
        jCenti?_div]

/-- C8: saving any store document and loading it back reproduces the document
exactly — the loaded file passes the structural check (no backup, no reset)
and decodes to a store equal to the one saved, users, histories, badges and
leaderboard all preserved element for element. -/
theorem save_load_roundtrip (d : StoreDoc) :
    loadData (saveData d) = { doc := encodeStore d, backup := none } ∧
    decodeStore (encodeStore d) = some d := by
  constructor
  · have hv : isValidStore (encodeStore d) = true := by
      simp [isValidStore, encodeStore]
    simp [saveData, loadData, hv]
  · have hu : mapMOpt (fun p => (decodeUser p.2).map (fun r => (p.1, r)))
        (d.users.map (fun p => (p.1, encodeUser p.2))) = some d.users := by
      have := mapMOpt_map (fun p : String × Json => (decodeUser p.2).map (fun r => (p.1, r)))
        (fun p : String × UserRecord => (p.1, encodeUser p.2)) d.users
        (fun b _ => by simp [decodeUser_encodeUser])
      simpa using this
    have hl : mapMOpt decodeLB (d.leaderboard.map encodeLB) = some d.leaderboard :=
      mapMOpt_map decodeLB encodeLB d.leaderboard (fun b _ => decodeLB_encodeLB b)
    simp [decodeStore, encodeStore, jLookup, List.find?, hu, hl]
